import Mathlib

/-!
Verification of the tgcd-server tag store (`src/main.rs`).

The program is a Postgres-backed content-addressed tag store. We shallowly
embed its data model — three tables `hash (id, hash unique)`,
`tag (id, name unique)`, `hash_tag (tag_id, hash_id)` — as association lists,
and embed each SQL statement of the source as a pure function on that state.
Postgres id sequences become the counters `nextHashId` / `nextTagId`; the
statement-level atomicity of the `WITH inserted AS (INSERT … ON CONFLICT DO
NOTHING RETURNING id) SELECT …` upsert becomes a single Lean function, and
transactional RPC handlers are embedded with an explicit per-statement fault
schedule: a failed statement aborts the transaction and the pre-call state is
kept (Postgres rollback).
-/

namespace Tgcd

/-- A hash value as stored in the `hash.hash` bytea column: a list of bytes. -/
abbrev HashVal := List Nat

/-- The persistent state: the three tables created by the migrations
(`hash(id, hash)`, `tag(id, name)`, `hash_tag(tag_id, hash_id)`), plus the
id sequences backing the two `id` columns. -/
structure Db where
  hashes : List (Nat × HashVal)
  tags : List (Nat × String)
  hashTag : List (Nat × Nat)
  nextHashId : Nat
  nextTagId : Nat
deriving DecidableEq, Repr

/-- The empty database, as after running the migrations on a fresh store. -/
def Db.empty : Db := ⟨[], [], [], 0, 0⟩

/-- `get_tags` (src/main.rs:124): the join
`SELECT tag.name FROM tag, hash_tag, hash WHERE tag.id = hash_tag.tag_id AND
hash_tag.hash_id = hash.id AND hash.hash = $1`. -/
def get_tags (db : Db) (h : HashVal) : List String :=
  db.tags.flatMap fun t =>
    db.hashTag.flatMap fun ht =>
      db.hashes.filterMap fun hr =>
        if t.1 = ht.1 ∧ ht.2 = hr.1 ∧ hr.2 = h then some t.2 else none

/-- `get_or_insert_hash` (src/main.rs:140): the atomic insert-or-select CTE on
the `hash` table. If a row for the value exists, its id is returned and the
state is untouched (the insert conflicts and does nothing); otherwise a fresh
row is inserted and its new id returned. -/
def get_or_insert_hash (db : Db) (h : HashVal) : Nat × Db :=
  match db.hashes.find? (fun r => r.2 == h) with
  | some r => (r.1, db)
  | none =>
    (db.nextHashId,
      { db with
        hashes := db.hashes ++ [(db.nextHashId, h)]
        nextHashId := db.nextHashId + 1 })

/-- `get_or_insert_tag` (src/main.rs:168): the same insert-or-select CTE on the
`tag` table. -/
def get_or_insert_tag (db : Db) (t : String) : Nat × Db :=
  match db.tags.find? (fun r => r.2 == t) with
  | some r => (r.1, db)
  | none =>
    (db.nextTagId,
      { db with
        tags := db.tags ++ [(db.nextTagId, t)]
        nextTagId := db.nextTagId + 1 })

/-- The association insert of `add_tags_to_hash` (src/main.rs:201):
`INSERT INTO hash_tag(tag_id, hash_id) VALUES ($1, $2) ON CONFLICT DO
NOTHING`. -/
def insert_hash_tag (db : Db) (tagId hashId : Nat) : Db :=
  if (tagId, hashId) ∈ db.hashTag then db
  else { db with hashTag := db.hashTag ++ [(tagId, hashId)] }

/-- The `for tag in tags` loop body of `add_tags_to_hash` (src/main.rs:199):
resolve each tag, then upsert the association to the already-resolved hash
id. -/
def add_tags_loop (db : Db) (hashId : Nat) : List String → Db
  | [] => db
  | t :: rest =>
    let r := get_or_insert_tag db t
    add_tags_loop (insert_hash_tag r.2 r.1 hashId) hashId rest

/-- `add_tags_to_hash` (src/main.rs:193): resolve the hash, then run the tag
loop. This is the pure success-path semantics of the transaction body. -/
def add_tags_to_hash (db : Db) (h : HashVal) (tags : List String) : Db :=
  let r := get_or_insert_hash db h
  add_tags_loop r.2 r.1 tags

/-- The success-path semantics of `Tgcd::copy_tags` (src/main.rs:260): read the
source's tags, then add them all to the destination. -/
def copy_tags (db : Db) (src dest : HashVal) : Db :=
  add_tags_to_hash db dest (get_tags db src)

/-- Modelled from the spec: `Blake2bHash::try_from` of the external `tgcd`
library crate (not under src/). The spec fixes hashes to a 256-bit digest, so
the constructor accepts exactly 32 bytes and rejects anything else with a
`HashError`. -/
def mkBlake2bHash (bytes : List Nat) : Option HashVal :=
  if bytes.length = 32 then some bytes else none

/-- Modelled from the spec: `Tag::try_from` of the external `tgcd` library
crate (not under src/). The spec says a tag is a non-empty string label, so
the constructor rejects the empty string with a `TagError`. -/
def mkTag (s : String) : Option String :=
  if s.isEmpty then none else some s

/-- `collect::<Result<Vec<_>, _>>`: validate a whole list, short-circuiting on
the first failure. -/
def collectValid (f : α → Option β) : List α → Option (List β)
  | [] => some []
  | x :: xs =>
    match f x, collectValid f xs with
    | some y, some ys => some (y :: ys)
    | _, _ => none

/-- The gRPC status codes the server emits (src/main.rs:110). -/
inductive Code
  | unavailable
  | invalidArgument
deriving DecidableEq, Repr

/-- A tonic `Status`: a code plus a message. -/
structure Status where
  code : Code
  msg : String
deriving DecidableEq, Repr

/-- The server's `Error` enum (src/main.rs:98): a Postgres error, an invalid
hash argument, or an invalid tag argument. -/
inductive Error
  | postgres
  | argHash
  | argTag
deriving DecidableEq, Repr

/-- `impl From<Error> for Status` (src/main.rs:110): storage errors become
`Unavailable "db error"`, argument errors become
`InvalidArgument "Received invalid argument"`. -/
def Error.toStatus : Error → Status
  | .postgres => ⟨Code.unavailable, "db error"⟩
  | .argHash => ⟨Code.invalidArgument, "Received invalid argument"⟩
  | .argTag => ⟨Code.invalidArgument, "Received invalid argument"⟩

/-- Outcome of an RPC handler: a gRPC response, a gRPC error status, or a
panic of the handler task (an `unwrap` failing). -/
inductive RpcResult (α : Type)
  | ok (a : α)
  | err (s : Status)
  | panic
deriving DecidableEq, Repr

/-- Fault model for storage statements: `failAt = some k` makes the k-th
storage statement executed by the handler fail with a Postgres error;
`failAt = none` is fault-free execution. -/
abbrev FailAt := Option Nat

/-- Run one storage statement (statement index `k`): either it fails according
to the fault schedule, or it performs its pure effect. -/
def runStmt (failAt : FailAt) (k : Nat) (x : α) : Except Unit α :=
  if failAt = some k then Except.error () else Except.ok x

/-- The `for tag in tags` loop of `add_tags_to_hash` inside the transaction,
with the fault schedule threaded through: each tag costs one resolution
statement and one association-insert statement. Returns the next statement
index and the transaction state. -/
def add_tags_loopT (failAt : FailAt) (k : Nat) (db : Db) (hashId : Nat) :
    List String → Except Unit (Nat × Db)
  | [] => Except.ok (k, db)
  | t :: rest =>
    match runStmt failAt k (get_or_insert_tag db t) with
    | Except.error e => Except.error e
    | Except.ok r =>
      match runStmt failAt (k + 1) (insert_hash_tag r.2 r.1 hashId) with
      | Except.error e => Except.error e
      | Except.ok db2 => add_tags_loopT failAt (k + 2) db2 hashId rest

/-- The transaction body of `add_tags_to_hash` (src/main.rs:193) under the
fault schedule: statement `k` resolves the hash, then the tag loop runs. -/
def add_tags_bodyT (failAt : FailAt) (k : Nat) (db : Db) (h : HashVal)
    (tags : List String) : Except Unit (Nat × Db) :=
  match runStmt failAt k (get_or_insert_hash db h) with
  | Except.error e => Except.error e
  | Except.ok r => add_tags_loopT failAt (k + 1) r.2 r.1 tags

/-- `Tgcd::get_tags` (src/main.rs:212): `pool.get().await.unwrap()` — the
handler task panics if acquiring a pooled connection fails (`pool = false`) —
then validate the hash, then run the single read query (statement 0). The
handler never mutates the store. -/
def rpc_get_tags (pool : Bool) (failAt : FailAt) (db : Db) (rawHash : List Nat) :
    RpcResult (List String) × Db :=
  match pool with
  | false => (RpcResult.panic, db)
  | true =>
    match mkBlake2bHash rawHash with
    | none => (RpcResult.err (Error.argHash).toStatus, db)
    | some h =>
      match runStmt failAt 0 (get_tags db h) with
      | Except.error _ => (RpcResult.err (Error.postgres).toStatus, db)
      | Except.ok tags => (RpcResult.ok tags, db)

/-- `Tgcd::add_tags_to_hash` (src/main.rs:220): `pool.get().await.unwrap()` —
panic on pool-acquisition failure — then validate the hash, validate every
tag, then run the transaction body (statements 0..) and the commit (one
further statement). On any statement failure the transaction rolls back and
the pre-call state is kept. -/
def rpc_add_tags_to_hash (pool : Bool) (failAt : FailAt) (db : Db)
    (rawHash : List Nat) (rawTags : List String) : RpcResult Unit × Db :=
  match pool with
  | false => (RpcResult.panic, db)
  | true =>
    match mkBlake2bHash rawHash with
    | none => (RpcResult.err (Error.argHash).toStatus, db)
    | some h =>
      match collectValid mkTag rawTags with
      | none => (RpcResult.err (Error.argTag).toStatus, db)
      | some tags =>
        match add_tags_bodyT failAt 0 db h tags with
        | Except.error _ => (RpcResult.err (Error.postgres).toStatus, db)
        | Except.ok r =>
          match runStmt failAt r.1 () with
          | Except.error _ => (RpcResult.err (Error.postgres).toStatus, db)
          | Except.ok _ => (RpcResult.ok (), r.2)

/-- `Tgcd::get_multiple_tags` (src/main.rs:238): `pool.get().await.unwrap()` —
panic on pool-acquisition failure — then validate every hash, then run one
read query per hash (statement i for the i-th hash); `try_join_all` fails the
whole call if any single query fails, otherwise the results are aligned
positionally with the request. -/
def rpc_get_multiple_tags (pool : Bool) (failAt : FailAt) (db : Db)
    (rawHashes : List (List Nat)) : RpcResult (List (List String)) × Db :=
  match pool with
  | false => (RpcResult.panic, db)
  | true =>
    match collectValid mkBlake2bHash rawHashes with
    | none => (RpcResult.err (Error.argHash).toStatus, db)
    | some hs =>
      match failAt with
      | some k =>
        if k < hs.length then (RpcResult.err (Error.postgres).toStatus, db)
        else (RpcResult.ok (hs.map (get_tags db)), db)
      | none => (RpcResult.ok (hs.map (get_tags db)), db)

/-- `Tgcd::copy_tags` (src/main.rs:260): `pool.get().await.unwrap()` — panic
on pool-acquisition failure — then validate both hashes, read the source's
tags outside any transaction (statement 0), re-parse each tag string with
`Tag::try_from(..).unwrap()` — panicking if any stored tag text fails
validation — then run the `add_tags_to_hash` transaction against the
destination (statements 1..) and commit. -/
def rpc_copy_tags (pool : Bool) (failAt : FailAt) (db : Db)
    (rawSrc rawDest : List Nat) : RpcResult Unit × Db :=
  match pool with
  | false => (RpcResult.panic, db)
  | true =>
    match mkBlake2bHash rawSrc with
    | none => (RpcResult.err (Error.argHash).toStatus, db)
    | some src =>
      match mkBlake2bHash rawDest with
      | none => (RpcResult.err (Error.argHash).toStatus, db)
      | some dest =>
        match runStmt failAt 0 (get_tags db src) with
        | Except.error _ => (RpcResult.err (Error.postgres).toStatus, db)
        | Except.ok srcTags =>
          match collectValid mkTag srcTags with
          | none => (RpcResult.panic, db)
          | some tags =>
            match add_tags_bodyT failAt 1 db dest tags with
            | Except.error _ => (RpcResult.err (Error.postgres).toStatus, db)
            | Except.ok r =>
              match runStmt failAt r.1 () with
              | Except.error _ => (RpcResult.err (Error.postgres).toStatus, db)
              | Except.ok _ => (RpcResult.ok (), r.2)

/-! ## Concrete sample states -/

/-- A well-formed 32-byte digest, used as concrete input. -/
def h32 : HashVal := List.replicate 32 0

/-- A second 32-byte digest distinct from `h32`. -/
def h32b : HashVal := 1 :: List.replicate 31 0

/-- A store holding one hash (`h32`) carrying one tag `"a"`. -/
def dbOne : Db := ⟨[(0, h32)], [(0, "a")], [(0, 0)], 1, 1⟩

/-- A corrupted store: the hash `h32` carries the empty-string tag, which
fails `Tag` validation. No state reachable through the RPC surface looks like
this. -/
def dbBad : Db := ⟨[(0, h32)], [(0, "")], [(0, 0)], 1, 1⟩

/-- A store where `h32` carries tags `"a", "b"` and `h32b` carries
`"b", "c"`. -/
def dbTwo : Db :=
  ⟨[(0, h32), (1, h32b)], [(0, "a"), (1, "b"), (2, "c")],
    [(0, 0), (1, 0), (1, 1), (2, 1)], 2, 3⟩

/-! ## Well-formedness of the database

These are the table constraints the migrations install (`id` columns fed by a
sequence, UNIQUE on `hash.hash` and `tag.name`) together with the sequence
bounds that make freshly drawn ids new. They hold of the empty database and
are preserved by every write. -/

/-- Invariants of the store: ids below the sequence counters, unique ids and
unique natural keys in the two entity tables, and association columns bounded
by the counters. -/
structure Db.WF (db : Db) : Prop where
  hashIdLt : ∀ r ∈ db.hashes, r.1 < db.nextHashId
  tagIdLt : ∀ r ∈ db.tags, r.1 < db.nextTagId
  hashIdU : ∀ r ∈ db.hashes, ∀ s ∈ db.hashes, r.1 = s.1 → r = s
  tagIdU : ∀ r ∈ db.tags, ∀ s ∈ db.tags, r.1 = s.1 → r = s
  hashValU : ∀ r ∈ db.hashes, ∀ s ∈ db.hashes, r.2 = s.2 → r = s
  tagNameU : ∀ r ∈ db.tags, ∀ s ∈ db.tags, r.2 = s.2 → r = s
  htTagLt : ∀ p ∈ db.hashTag, p.1 < db.nextTagId
  htHashLt : ∀ p ∈ db.hashTag, p.2 < db.nextHashId

theorem Db.WF.empty : Db.empty.WF := by
  constructor <;> simp [Db.empty]

/-! ## Membership in `get_tags` -/

/-- A name is in the result of the `get_tags` join exactly when the three
tables hold a witnessing row each. -/
theorem mem_get_tags {db : Db} {h : HashVal} {name : String} :
    name ∈ get_tags db h ↔
      ∃ tid hid, (tid, name) ∈ db.tags ∧ (tid, hid) ∈ db.hashTag ∧
        (hid, h) ∈ db.hashes := by
  simp only [get_tags, List.mem_flatMap, List.mem_filterMap]
  constructor
  · rintro ⟨⟨ta, tb⟩, htm, ⟨hta, htb⟩, hhtm, ⟨ha, hb⟩, hrm, heq⟩
    split at heq
    · rename_i hc
      obtain ⟨h1, h2, h3⟩ := hc
      injection heq with heq
      simp only at h1 h2 h3 heq
      subst h1 h2 h3 heq
      exact ⟨_, _, htm, hhtm, hrm⟩
    · cases heq
  · rintro ⟨tid, hid, h1, h2, h3⟩
    exact ⟨(tid, name), h1, (tid, hid), h2, (hid, h), h3, by simp⟩

/-- A hash value with no row in the `hash` table yields the empty tag list. -/
theorem get_tags_of_unknown {db : Db} {h : HashVal}
    (hu : ∀ r ∈ db.hashes, r.2 ≠ h) : get_tags db h = [] := by
  rw [List.eq_nil_iff_forall_not_mem]
  intro name hmem
  obtain ⟨tid, hid, _, _, h3⟩ := mem_get_tags.mp hmem
  exact hu (hid, h) h3 rfl

/-- A hash value whose rows have no association yields the empty tag list. -/
theorem get_tags_of_no_assoc {db : Db} {h : HashVal}
    (hu : ∀ r ∈ db.hashes, r.2 = h → ∀ p ∈ db.hashTag, p.2 ≠ r.1) :
    get_tags db h = [] := by
  rw [List.eq_nil_iff_forall_not_mem]
  intro name hmem
  obtain ⟨tid, hid, _, h2, h3⟩ := mem_get_tags.mp hmem
  exact hu (hid, h) h3 rfl (tid, hid) h2 rfl

/-! ## Structure of `get_or_insert_hash` / `get_or_insert_tag` -/

theorem goih_tags (db : Db) (h : HashVal) :
    (get_or_insert_hash db h).2.tags = db.tags := by
  unfold get_or_insert_hash; split <;> rfl

theorem goih_hashTag (db : Db) (h : HashVal) :
    (get_or_insert_hash db h).2.hashTag = db.hashTag := by
  unfold get_or_insert_hash; split <;> rfl

theorem goih_nextTagId (db : Db) (h : HashVal) :
    (get_or_insert_hash db h).2.nextTagId = db.nextTagId := by
  unfold get_or_insert_hash; split <;> rfl

theorem goih_nextHashId_le (db : Db) (h : HashVal) :
    db.nextHashId ≤ (get_or_insert_hash db h).2.nextHashId := by
  unfold get_or_insert_hash; split
  · exact Nat.le_refl _
  · exact Nat.le_succ _

/-- The resolved id names a row carrying exactly the requested value. -/
theorem goih_mem (db : Db) (h : HashVal) :
    ((get_or_insert_hash db h).1, h) ∈ (get_or_insert_hash db h).2.hashes := by
  unfold get_or_insert_hash
  split
  · rename_i r hr
    have h1 := List.mem_of_find?_eq_some hr
    have h2 := List.find?_some hr
    obtain ⟨a, b⟩ := r
    simp only [beq_iff_eq] at h2
    subst h2
    exact h1
  · simp

theorem goih_hashes_sub (db : Db) (h : HashVal) :
    ∀ r ∈ db.hashes, r ∈ (get_or_insert_hash db h).2.hashes := by
  unfold get_or_insert_hash
  split
  · exact fun r hr => hr
  · exact fun r hr => List.mem_append_left _ hr

theorem goih_hashes_super (db : Db) (h : HashVal) :
    ∀ r ∈ (get_or_insert_hash db h).2.hashes,
      r ∈ db.hashes ∨ r.1 = db.nextHashId := by
  unfold get_or_insert_hash
  split
  · exact fun r hr => Or.inl hr
  · intro r hr
    simp only [List.mem_append, List.mem_singleton] at hr
    rcases hr with hr | rfl
    · exact Or.inl hr
    · exact Or.inr rfl

/-- On a well-formed store, resolving a value already present returns the id
of its (unique) row and leaves the store untouched. -/
theorem goih_of_mem {db : Db} (w : db.WF) {i : Nat} {h : HashVal}
    (hm : (i, h) ∈ db.hashes) : get_or_insert_hash db h = (i, db) := by
  unfold get_or_insert_hash
  split
  · rename_i r hr
    have h1 := List.mem_of_find?_eq_some hr
    have h2 := List.find?_some hr
    simp only [beq_iff_eq] at h2
    have heq := w.hashValU r h1 (i, h) hm (by simpa using h2)
    simp [heq]
  · rename_i hn
    rw [List.find?_eq_none] at hn
    have hfalse := hn (i, h) hm
    simp at hfalse

/-- Resolving a value with no row appends one fresh row bearing the next
sequence id. -/
theorem goih_of_not_mem {db : Db} {h : HashVal}
    (hm : ∀ r ∈ db.hashes, r.2 ≠ h) :
    get_or_insert_hash db h =
      (db.nextHashId,
        { db with
          hashes := db.hashes ++ [(db.nextHashId, h)]
          nextHashId := db.nextHashId + 1 }) := by
  unfold get_or_insert_hash
  split
  · rename_i r hr
    have h1 := List.mem_of_find?_eq_some hr
    have h2 := List.find?_some hr
    simp only [beq_iff_eq] at h2
    exact absurd h2 (hm r h1)
  · rfl

/-- Resolving a tag with no row appends one fresh row bearing the next
sequence id. -/
theorem goit_of_not_mem {db : Db} {t : String}
    (hm : ∀ r ∈ db.tags, r.2 ≠ t) :
    get_or_insert_tag db t =
      (db.nextTagId,
        { db with
          tags := db.tags ++ [(db.nextTagId, t)]
          nextTagId := db.nextTagId + 1 }) := by
  unfold get_or_insert_tag
  split
  · rename_i r hr
    have h1 := List.mem_of_find?_eq_some hr
    have h2 := List.find?_some hr
    simp only [beq_iff_eq] at h2
    exact absurd h2 (hm r h1)
  · rfl

theorem wf_get_or_insert_hash {db : Db} (w : db.WF) (h : HashVal) :
    (get_or_insert_hash db h).2.WF := by
  unfold get_or_insert_hash
  split
  · exact w
  · rename_i hn
    rw [List.find?_eq_none] at hn
    simp only [beq_iff_eq] at hn
    constructor
    · intro r hr
      simp only [List.mem_append, List.mem_singleton] at hr
      rcases hr with hr | rfl
      · exact Nat.lt_succ_of_lt (w.hashIdLt r hr)
      · exact Nat.lt_succ_self _
    · exact fun r hr => w.tagIdLt r hr
    · intro r hr s hs he
      simp only [List.mem_append, List.mem_singleton] at hr hs
      rcases hr with hr | rfl <;> rcases hs with hs | rfl
      · exact w.hashIdU r hr s hs he
      · exact absurd he (Nat.ne_of_lt (w.hashIdLt r hr))
      · exact absurd he.symm (Nat.ne_of_lt (w.hashIdLt s hs))
      · rfl
    · exact w.tagIdU
    · intro r hr s hs he
      simp only [List.mem_append, List.mem_singleton] at hr hs
      rcases hr with hr | rfl <;> rcases hs with hs | rfl
      · exact w.hashValU r hr s hs he
      · exact absurd he (hn r hr)
      · exact absurd he.symm (hn s hs)
      · rfl
    · exact w.tagNameU
    · exact fun p hp => w.htTagLt p hp
    · exact fun p hp => Nat.lt_succ_of_lt (w.htHashLt p hp)

theorem goit_hashes (db : Db) (t : String) :
    (get_or_insert_tag db t).2.hashes = db.hashes := by
  unfold get_or_insert_tag; split <;> rfl

theorem goit_hashTag (db : Db) (t : String) :
    (get_or_insert_tag db t).2.hashTag = db.hashTag := by
  unfold get_or_insert_tag; split <;> rfl

theorem goit_nextHashId (db : Db) (t : String) :
    (get_or_insert_tag db t).2.nextHashId = db.nextHashId := by
  unfold get_or_insert_tag; split <;> rfl

theorem goit_nextTagId_le (db : Db) (t : String) :
    db.nextTagId ≤ (get_or_insert_tag db t).2.nextTagId := by
  unfold get_or_insert_tag; split
  · exact Nat.le_refl _
  · exact Nat.le_succ _

theorem goit_mem (db : Db) (t : String) :
    ((get_or_insert_tag db t).1, t) ∈ (get_or_insert_tag db t).2.tags := by
  unfold get_or_insert_tag
  split
  · rename_i r hr
    have h1 := List.mem_of_find?_eq_some hr
    have h2 := List.find?_some hr
    obtain ⟨a, b⟩ := r
    simp only [beq_iff_eq] at h2
    subst h2
    exact h1
  · simp

theorem goit_tags_sub (db : Db) (t : String) :
    ∀ r ∈ db.tags, r ∈ (get_or_insert_tag db t).2.tags := by
  unfold get_or_insert_tag
  split
  · exact fun r hr => hr
  · exact fun r hr => List.mem_append_left _ hr

theorem goit_tags_super (db : Db) (t : String) :
    ∀ r ∈ (get_or_insert_tag db t).2.tags,
      r ∈ db.tags ∨ r.1 = db.nextTagId := by
  unfold get_or_insert_tag
  split
  · exact fun r hr => Or.inl hr
  · intro r hr
    simp only [List.mem_append, List.mem_singleton] at hr
    rcases hr with hr | rfl
    · exact Or.inl hr
    · exact Or.inr rfl

theorem goit_of_mem {db : Db} (w : db.WF) {i : Nat} {t : String}
    (hm : (i, t) ∈ db.tags) : get_or_insert_tag db t = (i, db) := by
  unfold get_or_insert_tag
  split
  · rename_i r hr
    have h1 := List.mem_of_find?_eq_some hr
    have h2 := List.find?_some hr
    simp only [beq_iff_eq] at h2
    have heq := w.tagNameU r h1 (i, t) hm (by simpa using h2)
    simp [heq]
  · rename_i hn
    rw [List.find?_eq_none] at hn
    have hfalse := hn (i, t) hm
    simp at hfalse

/-- The freshly drawn tag id is below the updated sequence counter. -/
theorem goit_id_lt {db : Db} (w : db.WF) (t : String) :
    (get_or_insert_tag db t).1 < (get_or_insert_tag db t).2.nextTagId := by
  unfold get_or_insert_tag
  split
  · rename_i r hr
    exact w.tagIdLt r (List.mem_of_find?_eq_some hr)
  · exact Nat.lt_succ_self _

theorem wf_get_or_insert_tag {db : Db} (w : db.WF) (t : String) :
    (get_or_insert_tag db t).2.WF := by
  unfold get_or_insert_tag
  split
  · exact w
  · rename_i hn
    rw [List.find?_eq_none] at hn
    simp only [beq_iff_eq] at hn
    constructor
    · exact fun r hr => w.hashIdLt r hr
    · intro r hr
      simp only [List.mem_append, List.mem_singleton] at hr
      rcases hr with hr | rfl
      · exact Nat.lt_succ_of_lt (w.tagIdLt r hr)
      · exact Nat.lt_succ_self _
    · exact w.hashIdU
    · intro r hr s hs he
      simp only [List.mem_append, List.mem_singleton] at hr hs
      rcases hr with hr | rfl <;> rcases hs with hs | rfl
      · exact w.tagIdU r hr s hs he
      · exact absurd he (Nat.ne_of_lt (w.tagIdLt r hr))
      · exact absurd he.symm (Nat.ne_of_lt (w.tagIdLt s hs))
      · rfl
    · exact w.hashValU
    · intro r hr s hs he
      simp only [List.mem_append, List.mem_singleton] at hr hs
      rcases hr with hr | rfl <;> rcases hs with hs | rfl
      · exact w.tagNameU r hr s hs he
      · exact absurd he (hn r hr)
      · exact absurd he.symm (hn s hs)
      · rfl
    · exact fun p hp => Nat.lt_succ_of_lt (w.htTagLt p hp)
    · exact fun p hp => w.htHashLt p hp

/-- The freshly drawn hash id is below the updated sequence counter. -/
theorem goih_id_lt {db : Db} (w : db.WF) (h : HashVal) :
    (get_or_insert_hash db h).1 < (get_or_insert_hash db h).2.nextHashId := by
  unfold get_or_insert_hash
  split
  · rename_i r hr
    exact w.hashIdLt r (List.mem_of_find?_eq_some hr)
  · exact Nat.lt_succ_self _

/-! ## Structure of the association insert -/

theorem iht_hashes (db : Db) (a b : Nat) :
    (insert_hash_tag db a b).hashes = db.hashes := by
  unfold insert_hash_tag; split <;> rfl

theorem iht_tags (db : Db) (a b : Nat) :
    (insert_hash_tag db a b).tags = db.tags := by
  unfold insert_hash_tag; split <;> rfl

theorem iht_nextHashId (db : Db) (a b : Nat) :
    (insert_hash_tag db a b).nextHashId = db.nextHashId := by
  unfold insert_hash_tag; split <;> rfl

theorem iht_nextTagId (db : Db) (a b : Nat) :
    (insert_hash_tag db a b).nextTagId = db.nextTagId := by
  unfold insert_hash_tag; split <;> rfl

theorem iht_mem (db : Db) (a b : Nat) :
    (a, b) ∈ (insert_hash_tag db a b).hashTag := by
  unfold insert_hash_tag
  split
  · assumption
  · simp

theorem iht_hashTag_sub (db : Db) (a b : Nat) :
    ∀ p ∈ db.hashTag, p ∈ (insert_hash_tag db a b).hashTag := by
  unfold insert_hash_tag
  split
  · exact fun p hp => hp
  · exact fun p hp => List.mem_append_left _ hp

theorem iht_hashTag_super (db : Db) (a b : Nat) :
    ∀ p ∈ (insert_hash_tag db a b).hashTag, p ∈ db.hashTag ∨ p = (a, b) := by
  unfold insert_hash_tag
  split
  · exact fun p hp => Or.inl hp
  · intro p hp
    simp only [List.mem_append, List.mem_singleton] at hp
    exact hp

theorem iht_of_mem {db : Db} {a b : Nat} (hm : (a, b) ∈ db.hashTag) :
    insert_hash_tag db a b = db := by
  unfold insert_hash_tag
  simp [hm]

theorem wf_insert_hash_tag {db : Db} (w : db.WF) {a b : Nat}
    (ha : a < db.nextTagId) (hb : b < db.nextHashId) :
    (insert_hash_tag db a b).WF := by
  unfold insert_hash_tag
  split
  · exact w
  · constructor
    · exact w.hashIdLt
    · exact w.tagIdLt
    · exact w.hashIdU
    · exact w.tagIdU
    · exact w.hashValU
    · exact w.tagNameU
    · intro p hp
      simp only [List.mem_append, List.mem_singleton] at hp
      rcases hp with hp | rfl
      · exact w.htTagLt p hp
      · exact ha
    · intro p hp
      simp only [List.mem_append, List.mem_singleton] at hp
      rcases hp with hp | rfl
      · exact w.htHashLt p hp
      · exact hb

/-! ## Structure of the tag loop -/

theorem loop_hashes (hashId : Nat) (ts : List String) :
    ∀ db : Db, (add_tags_loop db hashId ts).hashes = db.hashes := by
  induction ts with
  | nil => intro db; rfl
  | cons t rest ih =>
    intro db
    rw [add_tags_loop, ih, iht_hashes, goit_hashes]

theorem loop_nextHashId (hashId : Nat) (ts : List String) :
    ∀ db : Db, (add_tags_loop db hashId ts).nextHashId = db.nextHashId := by
  induction ts with
  | nil => intro db; rfl
  | cons t rest ih =>
    intro db
    rw [add_tags_loop, ih, iht_nextHashId, goit_nextHashId]

theorem loop_tags_sub (hashId : Nat) (ts : List String) :
    ∀ db : Db, ∀ r ∈ db.tags, r ∈ (add_tags_loop db hashId ts).tags := by
  induction ts with
  | nil => exact fun db r hr => hr
  | cons t rest ih =>
    intro db r hr
    rw [add_tags_loop]
    exact ih _ r (by rw [iht_tags]; exact goit_tags_sub db t r hr)

theorem loop_hashTag_sub (hashId : Nat) (ts : List String) :
    ∀ db : Db, ∀ p ∈ db.hashTag, p ∈ (add_tags_loop db hashId ts).hashTag := by
  induction ts with
  | nil => exact fun db p hp => hp
  | cons t rest ih =>
    intro db p hp
    rw [add_tags_loop]
    refine ih _ p (iht_hashTag_sub _ _ _ p ?_)
    rw [goit_hashTag]
    exact hp

theorem wf_loop (hashId : Nat) (ts : List String) :
    ∀ db : Db, db.WF → hashId < db.nextHashId →
      (add_tags_loop db hashId ts).WF := by
  induction ts with
  | nil => exact fun db w _ => w
  | cons t rest ih =>
    intro db w hlt
    rw [add_tags_loop]
    have w1 := wf_get_or_insert_tag w t
    have w2 := wf_insert_hash_tag w1 (goit_id_lt w t)
      (by rw [goit_nextHashId]; exact hlt)
    exact ih _ w2 (by rw [iht_nextHashId, goit_nextHashId]; exact hlt)

/-- After the loop, every requested tag has a row whose id is associated with
the resolved hash id. -/
theorem loop_post (hashId : Nat) (ts : List String) :
    ∀ db : Db, ∀ t ∈ ts,
      ∃ tid, (tid, t) ∈ (add_tags_loop db hashId ts).tags ∧
        (tid, hashId) ∈ (add_tags_loop db hashId ts).hashTag := by
  induction ts with
  | nil => intro db t ht; cases ht
  | cons t0 rest ih =>
    intro db t ht
    rw [add_tags_loop]
    rcases List.mem_cons.mp ht with rfl | ht
    · refine ⟨(get_or_insert_tag db t).1, ?_, ?_⟩
      · refine loop_tags_sub _ _ _ _ ?_
        rw [iht_tags]
        exact goit_mem db t
      · exact loop_hashTag_sub _ _ _ _ (iht_mem _ _ _)
    · exact ih _ t ht

/-! ## What `add_tags_to_hash` can and cannot change in `get_tags` -/

/-- Resolving a hash creates no new `get_tags` results: a fresh hash row has
no association yet. -/
theorem get_tags_goih_sub {db : Db} (w : db.WF) (h h' : HashVal) :
    ∀ name, name ∈ get_tags (get_or_insert_hash db h).2 h' →
      name ∈ get_tags db h' := by
  intro name hmem
  rw [mem_get_tags] at hmem ⊢
  obtain ⟨tid, hid, h1, h2, h3⟩ := hmem
  rw [goih_tags] at h1
  rw [goih_hashTag] at h2
  rcases goih_hashes_super db h _ h3 with h3 | h3
  · exact ⟨tid, hid, h1, h2, h3⟩
  · exact absurd h3 (Nat.ne_of_lt (w.htHashLt (tid, hid) h2))

/-- Everything the tag loop adds to any `get_tags` result is one of the
requested tags, attached to the resolved hash id's rows. -/
theorem loop_get_tags_super (hashId : Nat) (h' : HashVal) (name : String)
    (ts : List String) :
    ∀ db : Db, db.WF → hashId < db.nextHashId →
      name ∈ get_tags (add_tags_loop db hashId ts) h' →
      name ∈ get_tags db h' ∨ ((hashId, h') ∈ db.hashes ∧ name ∈ ts) := by
  induction ts with
  | nil => exact fun db _ _ hmem => Or.inl hmem
  | cons t0 rest ih =>
    intro db w hlt hmem
    rw [add_tags_loop] at hmem
    have w1 := wf_get_or_insert_tag w t0
    have w2 := wf_insert_hash_tag w1 (goit_id_lt w t0)
      (by rw [goit_nextHashId]; exact hlt)
    rcases ih _ w2 (by rw [iht_nextHashId, goit_nextHashId]; exact hlt) hmem
      with hmem | ⟨hhm, hnm⟩
    · rw [mem_get_tags] at hmem
      obtain ⟨tid, hid, h1, h2, h3⟩ := hmem
      rw [iht_tags] at h1
      rw [iht_hashes, goit_hashes] at h3
      rcases iht_hashTag_super _ _ _ _ h2 with h2 | h2
      · rw [goit_hashTag] at h2
        rcases goit_tags_super db t0 _ h1 with h1 | h1
        · exact Or.inl (mem_get_tags.mpr ⟨tid, hid, h1, h2, h3⟩)
        · exact absurd h1 (Nat.ne_of_lt (w.htTagLt (tid, hid) h2))
      · obtain ⟨rfl, rfl⟩ := Prod.mk.injEq .. ▸ h2
        have hm0 := goit_mem db t0
        have := w1.tagIdU _ h1 _ hm0 rfl
        obtain rfl : name = t0 := congrArg Prod.snd this
        exact Or.inr ⟨h3, List.mem_cons_self _ _⟩
    · rw [iht_hashes, goit_hashes] at hhm
      exact Or.inr ⟨hhm, List.mem_cons_of_mem _ hnm⟩

/-- `add_tags_to_hash` adds to `get_tags` nothing beyond the requested tags on
the requested hash. -/
theorem add_tags_get_tags_super {db : Db} (w : db.WF) (h h' : HashVal)
    (ts : List String) (name : String)
    (hmem : name ∈ get_tags (add_tags_to_hash db h ts) h') :
    name ∈ get_tags db h' ∨ (h' = h ∧ name ∈ ts) := by
  rw [add_tags_to_hash] at hmem
  have w1 := wf_get_or_insert_hash w h
  rcases loop_get_tags_super _ h' name ts _ w1 (goih_id_lt w h) hmem
    with hmem | ⟨hhm, hnm⟩
  · exact Or.inl (get_tags_goih_sub w h h' name hmem)
  · have hm0 := goih_mem db h
    have := w1.hashIdU _ hhm _ hm0 rfl
    exact Or.inr ⟨congrArg Prod.snd this, hnm⟩

/-- `add_tags_to_hash` never removes a `get_tags` result, for any hash. -/
theorem add_tags_get_tags_mono (db : Db) (h h' : HashVal) (ts : List String)
    (name : String) (hmem : name ∈ get_tags db h') :
    name ∈ get_tags (add_tags_to_hash db h ts) h' := by
  rw [mem_get_tags] at hmem ⊢
  obtain ⟨tid, hid, h1, h2, h3⟩ := hmem
  rw [add_tags_to_hash]
  refine ⟨tid, hid, ?_, ?_, ?_⟩
  · exact loop_tags_sub _ _ _ _ (by rw [goih_tags]; exact h1)
  · exact loop_hashTag_sub _ _ _ _ (by rw [goih_hashTag]; exact h2)
  · rw [loop_hashes]
    exact goih_hashes_sub db h _ h3

/-- Every requested tag is a `get_tags` result of the requested hash after
`add_tags_to_hash`. -/
theorem add_tags_get_tags_of_mem (db : Db) (h : HashVal) (ts : List String)
    (t : String) (ht : t ∈ ts) :
    t ∈ get_tags (add_tags_to_hash db h ts) h := by
  rw [add_tags_to_hash, mem_get_tags]
  obtain ⟨tid, h1, h2⟩ := loop_post _ ts _ t ht
  refine ⟨tid, (get_or_insert_hash db h).1, h1, h2, ?_⟩
  rw [loop_hashes]
  exact goih_mem db h

theorem wf_add_tags {db : Db} (w : db.WF) (h : HashVal) (ts : List String) :
    (add_tags_to_hash db h ts).WF :=
  wf_loop _ ts _ (wf_get_or_insert_hash w h) (goih_id_lt w h)

/-! ## Idempotence -/

/-- When every requested tag already has an associated row for the hash id,
the loop is the identity on the store. -/
theorem loop_idem (hashId : Nat) (ts : List String) :
    ∀ db : Db, db.WF →
      (∀ t ∈ ts, ∃ tid, (tid, t) ∈ db.tags ∧ (tid, hashId) ∈ db.hashTag) →
      add_tags_loop db hashId ts = db := by
  induction ts with
  | nil => intro db _ _; rfl
  | cons t0 rest ih =>
    intro db w hall
    obtain ⟨tid, ht, ha⟩ := hall t0 (List.mem_cons_self _ _)
    rw [add_tags_loop]
    rw [goit_of_mem w ht]
    rw [iht_of_mem ha]
    exact ih db w fun t htm => hall t (List.mem_cons_of_mem _ htm)

/-- Running `add_tags_to_hash` a second time with the same arguments leaves
the store exactly as the first run left it. -/
theorem add_tags_idem {db : Db} (w : db.WF) (h : HashVal) (ts : List String) :
    add_tags_to_hash (add_tags_to_hash db h ts) h ts =
      add_tags_to_hash db h ts := by
  have w' := wf_add_tags w h ts
  have hmem : ((get_or_insert_hash db h).1, h) ∈ (add_tags_to_hash db h ts).hashes := by
    rw [add_tags_to_hash, loop_hashes]
    exact goih_mem db h
  conv_lhs => rw [add_tags_to_hash]
  rw [goih_of_mem w' hmem]
  exact loop_idem _ ts _ w' fun t htm => by
    have := loop_post (get_or_insert_hash db h).1 ts (get_or_insert_hash db h).2 t htm
    rw [← add_tags_to_hash] at this
    exact this

/-! ## The fault-scheduled transaction refines the pure semantics -/

theorem runStmt_none (k : Nat) (x : α) : runStmt none k x = Except.ok x := rfl

theorem runStmt_ok {failAt : FailAt} {k : Nat} {x y : α}
    (h : runStmt failAt k x = Except.ok y) : y = x := by
  unfold runStmt at h
  split at h
  · cases h
  · cases h; rfl

/-- A statement the schedule does not target succeeds. -/
theorem runStmt_ne {failAt : FailAt} {k : Nat} (h : failAt ≠ some k) (x : α) :
    runStmt failAt k x = Except.ok x := by
  unfold runStmt
  rw [if_neg h]

/-- A transaction body that reaches the end computes exactly the pure loop
result, whatever the fault schedule was. -/
theorem loopT_ok (hashId : Nat) (ts : List String) :
    ∀ failAt k (db : Db) r,
      add_tags_loopT failAt k db hashId ts = Except.ok r →
      r.2 = add_tags_loop db hashId ts := by
  induction ts with
  | nil =>
    intro failAt k db r h
    cases h
    rfl
  | cons t rest ih =>
    intro failAt k db r h
    rw [add_tags_loopT] at h
    rw [add_tags_loop]
    split at h
    · cases h
    · rename_i r1 h1
      split at h
      · cases h
      · rename_i db2 h2
        obtain rfl := runStmt_ok h1
        obtain rfl := runStmt_ok h2
        exact ih failAt (k + 2) _ r h

theorem bodyT_ok {failAt : FailAt} {k : Nat} {db : Db} {h : HashVal}
    {ts : List String} {r : Nat × Db}
    (hok : add_tags_bodyT failAt k db h ts = Except.ok r) :
    r.2 = add_tags_to_hash db h ts := by
  rw [add_tags_bodyT] at hok
  split at hok
  · cases hok
  · rename_i r1 h1
    obtain rfl := runStmt_ok h1
    rw [add_tags_to_hash]
    exact loopT_ok _ ts failAt (k + 1) _ r hok

/-- With no fault scheduled, the loop body always reaches the end. -/
theorem loopT_none (hashId : Nat) (ts : List String) :
    ∀ k (db : Db), ∃ k2,
      add_tags_loopT none k db hashId ts =
        Except.ok (k2, add_tags_loop db hashId ts) := by
  induction ts with
  | nil => exact fun k db => ⟨k, rfl⟩
  | cons t rest ih =>
    intro k db
    rw [add_tags_loopT, add_tags_loop]
    obtain ⟨k2, h2⟩ := ih (k + 2)
      (insert_hash_tag (get_or_insert_tag db t).2 (get_or_insert_tag db t).1 hashId)
    exact ⟨k2, h2⟩

theorem bodyT_none (db : Db) (h : HashVal) (ts : List String) (k : Nat) :
    ∃ k2, add_tags_bodyT none k db h ts =
      Except.ok (k2, add_tags_to_hash db h ts) := by
  rw [add_tags_bodyT, add_tags_to_hash]
  obtain ⟨k2, h2⟩ := loopT_none _ ts (k + 1) (get_or_insert_hash db h).2
  exact ⟨k2, h2⟩

/-! ## Validation plumbing -/

/-- Validators that return their input unchanged (both of ours do) make
`collectValid` the identity on success. -/
theorem collectValid_eq_self {f : α → Option α}
    (hf : ∀ a b, f a = some b → b = a) :
    ∀ {xs ys : List α}, collectValid f xs = some ys → ys = xs := by
  intro xs
  induction xs with
  | nil => intro ys h; cases h; rfl
  | cons x rest ih =>
    intro ys h
    rw [collectValid] at h
    cases h1 : f x with
    | none => rw [h1] at h; cases h
    | some y =>
      rw [h1] at h
      cases h2 : collectValid f rest with
      | none => rw [h2] at h; cases h
      | some zs =>
        rw [h2] at h
        cases h
        rw [hf x y h1, ih h2]

theorem mkTag_eq_self {s t : String} (h : mkTag s = some t) : t = s := by
  unfold mkTag at h
  split at h
  · cases h
  · cases h; rfl

theorem mkBlake2bHash_eq_self {b : List Nat} {h : HashVal}
    (hv : mkBlake2bHash b = some h) : h = b := by
  unfold mkBlake2bHash at hv
  split at hv
  · cases hv; rfl
  · cases hv

/-- One invalid element fails the whole `collectValid` pass — this is the
`collect::<Result<..>>` short-circuit. -/
theorem collectValid_none {f : α → Option β} :
    ∀ {xs : List α}, (∃ x ∈ xs, f x = none) → collectValid f xs = none := by
  intro xs
  induction xs with
  | nil =>
    rintro ⟨x, hx, -⟩
    cases hx
  | cons a rest ih =>
    rintro ⟨x, hx, hfx⟩
    rw [collectValid]
    rcases List.mem_cons.mp hx with rfl | hx
    · rw [hfx]
    · rw [ih ⟨x, hx, hfx⟩]
      cases f a <;> rfl

/-- A list of individually valid values passes `collectValid`. -/
theorem collectValid_of_valid {f : α → Option α}
    (hf : ∀ a b, f a = some b → b = a) :
    ∀ {xs : List α}, (∀ x ∈ xs, (f x).isSome) →
      collectValid f xs = some xs := by
  intro xs
  induction xs with
  | nil => intro _; rfl
  | cons x rest ih =>
    intro hall
    rw [collectValid]
    cases h1 : f x with
    | none =>
      have := hall x (List.mem_cons_self _ _)
      rw [h1] at this
      cases this
    | some y =>
      obtain rfl := hf x y h1
      rw [ih fun z hz => hall z (List.mem_cons_of_mem _ hz)]

/-! ## Inverting the RPC handlers -/

/-- A successful `AddTagsToHash` call leaves exactly the pure
`add_tags_to_hash` state. -/
theorem rpc_add_ok_inv {pool : Bool} {failAt : FailAt} {db : Db}
    {rawHash : List Nat} {rawTags : List String} {h : HashVal}
    {ts : List String} {db2 : Db}
    (hv : mkBlake2bHash rawHash = some h)
    (ht : collectValid mkTag rawTags = some ts)
    (hok : rpc_add_tags_to_hash pool failAt db rawHash rawTags =
      (RpcResult.ok (), db2)) :
    db2 = add_tags_to_hash db h ts := by
  cases pool with
  | false => simp [rpc_add_tags_to_hash] at hok
  | true =>
    rw [rpc_add_tags_to_hash] at hok
    rw [hv] at hok
    simp only at hok
    rw [ht] at hok
    simp only at hok
    split at hok
    · simp at hok
    · rename_i r h1
      split at hok
      · simp at hok
      · obtain ⟨-, rfl⟩ := Prod.mk.injEq .. ▸ hok
        exact bodyT_ok h1

/-- Any non-`ok` outcome of `AddTagsToHash` (an error status or a panic)
leaves the pre-call state. -/
theorem rpc_add_err_state {pool : Bool} {failAt : FailAt} {db : Db}
    {rawHash : List Nat} {rawTags : List String} :
    (rpc_add_tags_to_hash pool failAt db rawHash rawTags).1 = RpcResult.ok () ∨
      (rpc_add_tags_to_hash pool failAt db rawHash rawTags).2 = db := by
  cases pool with
  | false => exact Or.inr rfl
  | true => ?_
  rw [rpc_add_tags_to_hash]
  split
  · exact Or.inr rfl
  · split
    · exact Or.inr rfl
    · split
      · exact Or.inr rfl
      · split
        · exact Or.inr rfl
        · exact Or.inl rfl

/-- A fault-free `AddTagsToHash` call on valid input succeeds and commits the
pure `add_tags_to_hash` state. -/
theorem rpc_add_none_ok {db : Db} {rawHash : List Nat} {rawTags : List String}
    {h : HashVal} {ts : List String}
    (hv : mkBlake2bHash rawHash = some h)
    (ht : collectValid mkTag rawTags = some ts) :
    rpc_add_tags_to_hash true none db rawHash rawTags =
      (RpcResult.ok (), add_tags_to_hash db h ts) := by
  rw [rpc_add_tags_to_hash]
  rw [hv]
  simp only
  rw [ht]
  simp only
  obtain ⟨k2, h2⟩ := bodyT_none db h ts 0
  rw [h2]
  rfl

/-- A successful `CopyTags` call leaves exactly the pure `copy_tags` state. -/
theorem rpc_copy_ok_inv {pool : Bool} {failAt : FailAt} {db : Db}
    {rawSrc rawDest : List Nat} {src dest : HashVal} {db2 : Db}
    (hs : mkBlake2bHash rawSrc = some src)
    (hd : mkBlake2bHash rawDest = some dest)
    (hok : rpc_copy_tags pool failAt db rawSrc rawDest = (RpcResult.ok (), db2)) :
    db2 = copy_tags db src dest := by
  cases pool with
  | false => simp [rpc_copy_tags] at hok
  | true => ?_
  rw [rpc_copy_tags] at hok
  rw [hs] at hok
  simp only at hok
  rw [hd] at hok
  simp only at hok
  split at hok
  · simp at hok
  · rename_i srcTags h0
    obtain rfl := runStmt_ok h0
    split at hok
    · simp at hok
    · rename_i ts h1
      obtain rfl := collectValid_eq_self (fun a b hb => mkTag_eq_self hb) h1
      split at hok
      · simp at hok
      · rename_i r h2
        split at hok
        · simp at hok
        · obtain ⟨-, rfl⟩ := Prod.mk.injEq .. ▸ hok
          exact bodyT_ok h2

/-- A successful `GetMultipleTags` call returns exactly the per-hash
`get_tags` answers, in request order, without touching the store. -/
theorem rpc_gmt_ok_inv {pool : Bool} {failAt : FailAt} {db : Db}
    {rawHashes : List (List Nat)}
    {hs : List HashVal} {out : List (List String)} {db2 : Db}
    (hv : collectValid mkBlake2bHash rawHashes = some hs)
    (hok : rpc_get_multiple_tags pool failAt db rawHashes = (RpcResult.ok out, db2)) :
    out = hs.map (get_tags db) ∧ db2 = db := by
  cases pool with
  | false => simp [rpc_get_multiple_tags] at hok
  | true => ?_
  rw [rpc_get_multiple_tags] at hok
  rw [hv] at hok
  simp only at hok
  split at hok
  · split at hok
    · simp at hok
    · obtain ⟨h1, h2⟩ := Prod.mk.injEq .. ▸ hok
      exact ⟨(RpcResult.ok.injEq .. ▸ h1).symm, h2.symm⟩
  · obtain ⟨h1, h2⟩ := Prod.mk.injEq .. ▸ hok
    exact ⟨(RpcResult.ok.injEq .. ▸ h1).symm, h2.symm⟩

/-- Every string `get_tags` returns is the text of some stored tag row. -/
theorem get_tags_mem_tags {db : Db} {h : HashVal} {s : String}
    (hm : s ∈ get_tags db h) : ∃ tid, (tid, s) ∈ db.tags := by
  obtain ⟨tid, _, h1, -, -⟩ := mem_get_tags.mp hm
  exact ⟨tid, h1⟩

/-! ## The claims -/

/-- C1: the entity resolvers `get_or_insert_hash` / `get_or_insert_tag`
return the id of the existing row when one exists for the value (the
conflict-on-insert case is success, the pre-existing row's id is returned and
the store is untouched), and otherwise insert one new row and return its
fresh id. Both outcomes are total — no error is possible past the single
statement itself. -/
theorem claim_C1 (db : Db) (w : db.WF) (h : HashVal) (t : String) :
    (∀ i, (i, h) ∈ db.hashes → get_or_insert_hash db h = (i, db)) ∧
    ((∀ r ∈ db.hashes, r.2 ≠ h) →
      get_or_insert_hash db h =
        (db.nextHashId,
          { db with
            hashes := db.hashes ++ [(db.nextHashId, h)]
            nextHashId := db.nextHashId + 1 })) ∧
    (∀ i, (i, t) ∈ db.tags → get_or_insert_tag db t = (i, db)) ∧
    ((∀ r ∈ db.tags, r.2 ≠ t) →
      get_or_insert_tag db t =
        (db.nextTagId,
          { db with
            tags := db.tags ++ [(db.nextTagId, t)]
            nextTagId := db.nextTagId + 1 })) :=
  ⟨fun _ hm => goih_of_mem w hm, fun hm => goih_of_not_mem hm,
   fun _ hm => goit_of_mem w hm, fun hm => goit_of_not_mem hm⟩

theorem claim_C1_witness :
    get_or_insert_hash dbOne h32 = (0, dbOne) ∧
    get_or_insert_tag dbOne "b" =
      (1, { dbOne with tags := dbOne.tags ++ [(1, "b")], nextTagId := 2 }) := by
  have hc := claim_C1 dbOne (by constructor <;> decide) h32 "b"
  exact ⟨hc.1 0 (by decide), hc.2.2.2 (by decide)⟩

/-- C2: `AddTagsToHash` is atomic. Whatever the fault schedule, an error
outcome leaves the pre-call store (the transaction rolled back, none of the
call's state is visible), and a success outcome leaves every requested
association in place. -/
theorem claim_C2 (pool : Bool) (failAt : FailAt) (db : Db) (rawHash : List Nat)
    (rawTags : List String) :
    (∀ s db2,
      rpc_add_tags_to_hash pool failAt db rawHash rawTags = (RpcResult.err s, db2) →
      db2 = db) ∧
    (∀ h ts db2, mkBlake2bHash rawHash = some h →
      collectValid mkTag rawTags = some ts →
      rpc_add_tags_to_hash pool failAt db rawHash rawTags = (RpcResult.ok (), db2) →
      ∀ t ∈ ts, t ∈ get_tags db2 h) := by
  constructor
  · intro s db2 he
    rcases @rpc_add_err_state pool failAt db rawHash rawTags with h1 | h1
    · rw [he] at h1
      simp at h1
    · rw [he] at h1
      exact h1
  · intro h ts db2 hv ht hok t htm
    obtain rfl := rpc_add_ok_inv hv ht hok
    exact add_tags_get_tags_of_mem db h ts t htm

theorem claim_C2_witness :
    Db.empty = Db.empty ∧
    "y" ∈ get_tags (add_tags_to_hash Db.empty h32 ["x", "y"]) h32 := by
  refine ⟨?_, ?_⟩
  · exact (claim_C2 true (some 3) Db.empty h32 ["x", "y"]).1
      (Error.postgres).toStatus Db.empty (by decide)
  · exact (claim_C2 true none Db.empty h32 ["x", "y"]).2 h32 ["x", "y"]
      (add_tags_to_hash Db.empty h32 ["x", "y"]) (by decide) (by decide)
      (by decide) "y" (by decide)

/-- C3: after a successful `AddTagsToHash(h, T)`, `GetTags(h)` is a superset
of `T` — every requested tag is now associated, and every previously
associated tag still is. -/
theorem claim_C3 (pool : Bool) (failAt : FailAt) (db : Db) (rawHash : List Nat)
    (rawTags : List String) (h : HashVal) (ts : List String) (db2 : Db)
    (hv : mkBlake2bHash rawHash = some h)
    (ht : collectValid mkTag rawTags = some ts)
    (hok : rpc_add_tags_to_hash pool failAt db rawHash rawTags = (RpcResult.ok (), db2)) :
    (∀ t ∈ ts, t ∈ get_tags db2 h) ∧
    (∀ t ∈ get_tags db h, t ∈ get_tags db2 h) := by
  obtain rfl := rpc_add_ok_inv hv ht hok
  exact ⟨fun t htm => add_tags_get_tags_of_mem db h ts t htm,
    fun t htm => add_tags_get_tags_mono db h h ts t htm⟩

theorem claim_C3_witness :
    "x" ∈ get_tags (add_tags_to_hash dbOne h32 ["x"]) h32 ∧
    "a" ∈ get_tags (add_tags_to_hash dbOne h32 ["x"]) h32 := by
  have hc := claim_C3 true none dbOne h32 ["x"] h32 ["x"]
    (add_tags_to_hash dbOne h32 ["x"]) (by decide) (by decide) (by decide)
  exact ⟨hc.1 "x" (by decide), hc.2 "a" (by decide)⟩

/-- C4: `AddTagsToHash` is idempotent. After a successful call, repeating the
same call on a fault-free run succeeds and leaves the committed store exactly
as it was — so `GetTags` is unchanged everywhere and re-attaching present
tags is a no-op, not an error. -/
theorem claim_C4 (pool : Bool) (failAt : FailAt) (db : Db) (w : db.WF)
    (rawHash : List Nat)
    (rawTags : List String) (h : HashVal) (ts : List String) (db1 : Db)
    (hv : mkBlake2bHash rawHash = some h)
    (ht : collectValid mkTag rawTags = some ts)
    (hok : rpc_add_tags_to_hash pool failAt db rawHash rawTags = (RpcResult.ok (), db1)) :
    rpc_add_tags_to_hash true none db1 rawHash rawTags = (RpcResult.ok (), db1) := by
  obtain rfl := rpc_add_ok_inv hv ht hok
  rw [rpc_add_none_ok hv ht, add_tags_idem w]

theorem claim_C4_witness :
    rpc_add_tags_to_hash true none (add_tags_to_hash Db.empty h32 ["x"]) h32 ["x"] =
      (RpcResult.ok (), add_tags_to_hash Db.empty h32 ["x"]) :=
  claim_C4 true none Db.empty (by constructor <;> decide) h32 ["x"] h32 ["x"]
    (add_tags_to_hash Db.empty h32 ["x"]) (by decide) (by decide) (by decide)

/-- C5: `GetTags` of a hash unknown to the store succeeds with the empty set
rather than an error, and a known hash with zero associations is
observationally identical (same successful empty answer). -/
theorem claim_C5 (db : Db) (rawHash : List Nat) (h : HashVal)
    (hv : mkBlake2bHash rawHash = some h) :
    ((∀ r ∈ db.hashes, r.2 ≠ h) →
      rpc_get_tags true none db rawHash = (RpcResult.ok [], db)) ∧
    ((∀ r ∈ db.hashes, r.2 = h → ∀ p ∈ db.hashTag, p.2 ≠ r.1) →
      rpc_get_tags true none db rawHash = (RpcResult.ok [], db)) := by
  have hred : rpc_get_tags true none db rawHash = (RpcResult.ok (get_tags db h), db) := by
    rw [rpc_get_tags, hv]
    rfl
  constructor
  · intro hu
    rw [hred, get_tags_of_unknown hu]
  · intro hu
    rw [hred, get_tags_of_no_assoc hu]

theorem claim_C5_witness :
    rpc_get_tags true none dbOne h32b = (RpcResult.ok [], dbOne) :=
  (claim_C5 dbOne h32b h32b (by decide)).1 (by decide)

/-- C6: a successful `CopyTags(src, dest)` makes `GetTags(dest)` exactly the
union of its previous value and the source's tag set (the read-at-call-time
snapshot); self-copy leaves `GetTags` unchanged, and copying from a tagless
hash attaches nothing. -/
theorem claim_C6 (pool : Bool) (failAt : FailAt) (db : Db) (w : db.WF)
    (rawSrc rawDest : List Nat) (src dest : HashVal)
    (hs : mkBlake2bHash rawSrc = some src)
    (hd : mkBlake2bHash rawDest = some dest) (db2 : Db)
    (hok : rpc_copy_tags pool failAt db rawSrc rawDest = (RpcResult.ok (), db2)) :
    (∀ t, t ∈ get_tags db2 dest ↔
      t ∈ get_tags db dest ∨ t ∈ get_tags db src) ∧
    (src = dest → ∀ t, t ∈ get_tags db2 dest ↔ t ∈ get_tags db dest) ∧
    (get_tags db src = [] →
      ∀ t, t ∈ get_tags db2 dest ↔ t ∈ get_tags db dest) := by
  obtain rfl := rpc_copy_ok_inv hs hd hok
  have hunion : ∀ t, t ∈ get_tags (copy_tags db src dest) dest ↔
      t ∈ get_tags db dest ∨ t ∈ get_tags db src := by
    intro t
    constructor
    · intro hm
      rcases add_tags_get_tags_super w dest dest (get_tags db src) t hm
        with hm | ⟨-, hm⟩
      · exact Or.inl hm
      · exact Or.inr hm
    · rintro (hm | hm)
      · exact add_tags_get_tags_mono db dest dest (get_tags db src) t hm
      · exact add_tags_get_tags_of_mem db dest (get_tags db src) t hm
  refine ⟨hunion, ?_, ?_⟩
  · rintro rfl t
    rw [hunion t, or_self]
  · intro hnil t
    rw [hunion t, hnil]
    simp

theorem claim_C6_witness :
    ("a" ∈ get_tags (copy_tags dbTwo h32 h32b) h32b ↔
      "a" ∈ get_tags dbTwo h32b ∨ "a" ∈ get_tags dbTwo h32) ∧
    ("d" ∈ get_tags (copy_tags dbTwo h32 h32b) h32b ↔
      "d" ∈ get_tags dbTwo h32b ∨ "d" ∈ get_tags dbTwo h32) := by
  have hc := claim_C6 true none dbTwo (by constructor <;> decide) h32 h32b h32 h32b
    (by decide) (by decide) (copy_tags dbTwo h32 h32b) (by decide)
  exact ⟨hc.1 "a", hc.1 "d"⟩

/-- C7: a successful `GetMultipleTags` answers with one tag set per input
hash, positionally aligned: the result has the length of the request and its
i-th element is `get_tags` of the i-th requested hash, duplicates included. -/
theorem claim_C7 (pool : Bool) (failAt : FailAt) (db : Db)
    (rawHashes : List (List Nat))
    (hs : List HashVal) (out : List (List String)) (db2 : Db)
    (hv : collectValid mkBlake2bHash rawHashes = some hs)
    (hok : rpc_get_multiple_tags pool failAt db rawHashes = (RpcResult.ok out, db2)) :
    out.length = rawHashes.length ∧
    ∀ i (h1 : i < out.length) (h2 : i < rawHashes.length),
      out[i] = get_tags db (rawHashes[i]) := by
  obtain rfl := collectValid_eq_self (fun a b hb => mkBlake2bHash_eq_self hb) hv
  obtain ⟨rfl, -⟩ := rpc_gmt_ok_inv hv hok
  constructor
  · exact List.length_map _ _
  · intro i h1 h2
    simp [List.getElem_map]

theorem claim_C7_witness :
    ([["a"], [], ["a"]] : List (List String)).length =
      [h32, h32b, h32].length ∧
    ([["a"], [], ["a"]] : List (List String))[2] =
      get_tags dbOne ([h32, h32b, h32][2]) := by
  have hc := claim_C7 true none dbOne [h32, h32b, h32] [h32, h32b, h32]
    [["a"], [], ["a"]] dbOne (by decide) (by decide)
  exact ⟨hc.1, hc.2 2 (by decide) (by decide)⟩

/-- C8 (amended): every failure reported as a gRPC status is one of exactly
two conditions — with a pooled connection, any malformed hash or tag input is
reported as `InvalidArgument "Received invalid argument"`, and on valid input
the only reportable failure is a Postgres statement failure, reported as
`Unavailable "db error"`; no other status is ever produced. However, a
connection-pool acquisition failure is not reported as a status at all:
`pool.get().await.unwrap()` (src/main.rs:213/221/242/265) panics the handler
task in all four operations. -/
theorem claim_C8 (failAt : FailAt) (db : Db) (rawHash : List Nat)
    (rawTags : List String) (rawHashes : List (List Nat))
    (rawSrc rawDest : List Nat) (s : Status) :
    (rpc_get_tags false failAt db rawHash = (RpcResult.panic, db) ∧
      rpc_add_tags_to_hash false failAt db rawHash rawTags = (RpcResult.panic, db) ∧
      rpc_get_multiple_tags false failAt db rawHashes = (RpcResult.panic, db) ∧
      rpc_copy_tags false failAt db rawSrc rawDest = (RpcResult.panic, db)) ∧
    (mkBlake2bHash rawHash = none →
      (rpc_get_tags true failAt db rawHash).1 =
        RpcResult.err (Error.argHash).toStatus ∧
      (rpc_add_tags_to_hash true failAt db rawHash rawTags).1 =
        RpcResult.err (Error.argHash).toStatus) ∧
    (∀ h, mkBlake2bHash rawHash = some h →
      collectValid mkTag rawTags = none →
      (rpc_add_tags_to_hash true failAt db rawHash rawTags).1 =
        RpcResult.err (Error.argTag).toStatus) ∧
    (collectValid mkBlake2bHash rawHashes = none →
      (rpc_get_multiple_tags true failAt db rawHashes).1 =
        RpcResult.err (Error.argHash).toStatus) ∧
    (mkBlake2bHash rawSrc = none →
      (rpc_copy_tags true failAt db rawSrc rawDest).1 =
        RpcResult.err (Error.argHash).toStatus) ∧
    (∀ src, mkBlake2bHash rawSrc = some src → mkBlake2bHash rawDest = none →
      (rpc_copy_tags true failAt db rawSrc rawDest).1 =
        RpcResult.err (Error.argHash).toStatus) ∧
    (∀ h, mkBlake2bHash rawHash = some h →
      (rpc_get_tags true failAt db rawHash).1 = RpcResult.err s →
      s = (Error.postgres).toStatus) ∧
    (∀ h ts, mkBlake2bHash rawHash = some h →
      collectValid mkTag rawTags = some ts →
      (rpc_add_tags_to_hash true failAt db rawHash rawTags).1 = RpcResult.err s →
      s = (Error.postgres).toStatus) ∧
    (∀ hs, collectValid mkBlake2bHash rawHashes = some hs →
      (rpc_get_multiple_tags true failAt db rawHashes).1 = RpcResult.err s →
      s = (Error.postgres).toStatus) ∧
    (∀ src dest, mkBlake2bHash rawSrc = some src →
      mkBlake2bHash rawDest = some dest →
      (rpc_copy_tags true failAt db rawSrc rawDest).1 = RpcResult.err s →
      s = (Error.postgres).toStatus) ∧
    ((Error.postgres).toStatus.code = Code.unavailable ∧
      (Error.argHash).toStatus.code = Code.invalidArgument ∧
      (Error.argTag).toStatus.code = Code.invalidArgument) := by
  refine ⟨⟨rfl, rfl, rfl, rfl⟩, ?_, ?_, ?_, ?_, ?_, ?_, ?_, ?_, ?_,
    rfl, rfl, rfl⟩
  · intro hn
    constructor
    · rw [rpc_get_tags, hn]
    · rw [rpc_add_tags_to_hash, hn]
  · intro h hv hn
    rw [rpc_add_tags_to_hash, hv]
    simp only
    rw [hn]
  · intro hn
    rw [rpc_get_multiple_tags, hn]
  · intro hn
    rw [rpc_copy_tags, hn]
  · intro src hsv hdv
    rw [rpc_copy_tags, hsv]
    simp only
    rw [hdv]
  · intro h hv hok
    rw [rpc_get_tags, hv] at hok
    simp only at hok
    split at hok
    · injection hok with hok
      exact hok.symm
    · simp at hok
  · intro h ts hv ht hok
    rw [rpc_add_tags_to_hash, hv] at hok
    simp only at hok
    rw [ht] at hok
    simp only at hok
    split at hok
    · injection hok with hok
      exact hok.symm
    · split at hok
      · injection hok with hok
        exact hok.symm
      · simp at hok
  · intro hs hv hok
    rw [rpc_get_multiple_tags, hv] at hok
    simp only at hok
    split at hok
    · split at hok
      · injection hok with hok
        exact hok.symm
      · simp at hok
    · simp at hok
  · intro src dest hsv hdv hok
    rw [rpc_copy_tags, hsv] at hok
    simp only at hok
    rw [hdv] at hok
    simp only at hok
    split at hok
    · injection hok with hok
      exact hok.symm
    · split at hok
      · simp at hok
      · split at hok
        · injection hok with hok
          exact hok.symm
        · split at hok
          · injection hok with hok
            exact hok.symm
          · simp at hok

/-- C8, as frozen, is false of the code: a connectivity failure at connection
acquisition (`pool.get().await.unwrap()`) is a storage/connectivity failure
that is not reported to the caller as the unavailable status — or as any
status: the handler panics. -/
theorem claim_C8_counterexample :
    rpc_get_tags false none Db.empty h32 = (RpcResult.panic, Db.empty) ∧
    (RpcResult.panic : RpcResult (List String)) ≠
      RpcResult.err (Error.postgres).toStatus ∧
    (RpcResult.panic : RpcResult (List String)) ≠
      RpcResult.err (Error.argHash).toStatus := by
  refine ⟨rfl, ?_, ?_⟩ <;> decide

theorem claim_C8_witness :
    (rpc_get_tags true none Db.empty []).1 =
      RpcResult.err (Error.argHash).toStatus ∧
    rpc_get_tags false (some 0) Db.empty h32 = (RpcResult.panic, Db.empty) ∧
    (Error.postgres).toStatus = (Error.postgres).toStatus ∧
    (Error.postgres).toStatus.code = Code.unavailable := by
  obtain ⟨-, hbad, -, -, -, -, -, -, -, -, hcodes⟩ :=
    claim_C8 none Db.empty [] [] [] [] [] (Error.postgres).toStatus
  obtain ⟨hpool2, -, -, -, -, -, hget2, -, -, -, -⟩ :=
    claim_C8 (some 0) Db.empty h32 [] [] [] [] (Error.postgres).toStatus
  exact ⟨(hbad (by decide)).1, hpool2.1,
    hget2 h32 (by decide) (by decide), hcodes.1⟩

/-- C9: `AddTagsToHash` with an empty tag set is a valid, successful call: it
still resolves (creating if absent) the hash row, and writes no tag rows and
no associations. -/
theorem claim_C9 (db : Db) (rawHash : List Nat) (h : HashVal)
    (hv : mkBlake2bHash rawHash = some h) :
    rpc_add_tags_to_hash true none db rawHash [] =
      (RpcResult.ok (), (get_or_insert_hash db h).2) ∧
    (get_or_insert_hash db h).2.tags = db.tags ∧
    (get_or_insert_hash db h).2.hashTag = db.hashTag ∧
    ((get_or_insert_hash db h).1, h) ∈ (get_or_insert_hash db h).2.hashes := by
  refine ⟨?_, goih_tags db h, goih_hashTag db h, goih_mem db h⟩
  exact @rpc_add_none_ok db rawHash [] h [] hv rfl

theorem claim_C9_witness :
    rpc_add_tags_to_hash true none Db.empty h32 [] =
      (RpcResult.ok (), (get_or_insert_hash Db.empty h32).2) ∧
    (get_or_insert_hash Db.empty h32).2.tags = Db.empty.tags ∧
    (get_or_insert_hash Db.empty h32).2.hashTag = Db.empty.hashTag ∧
    ((get_or_insert_hash Db.empty h32).1, h32) ∈
      (get_or_insert_hash Db.empty h32).2.hashes :=
  claim_C9 Db.empty h32 h32 (by decide)

/-- C10: the `Tag::try_from(..).unwrap()` re-parse in `CopyTags` is
unreachable while every stored tag text passes `Tag` validation (as all state
written through the validated RPC surface does): with a pooled connection, no
fault schedule makes the handler panic. And on every store holding a tag text
that fails validation, `CopyTags` from any hash carrying it — in any run
whose source read succeeds — panics and leaves the store, instead of
returning an invalid-argument or unavailable status. -/
theorem claim_C10 :
    (∀ (failAt : FailAt) (db : Db) (rawSrc rawDest : List Nat),
      (∀ r ∈ db.tags, (mkTag r.2).isSome) →
      (rpc_copy_tags true failAt db rawSrc rawDest).1 ≠ RpcResult.panic) ∧
    (∀ (failAt : FailAt) (db : Db) (rawSrc rawDest : List Nat)
      (src dest : HashVal),
      mkBlake2bHash rawSrc = some src →
      mkBlake2bHash rawDest = some dest →
      (∃ x ∈ get_tags db src, mkTag x = none) →
      failAt ≠ some 0 →
      rpc_copy_tags true failAt db rawSrc rawDest = (RpcResult.panic, db)) := by
  constructor
  · intro failAt db rawSrc rawDest hvalid
    rw [rpc_copy_tags]
    split
    · simp
    · rename_i src hsrc
      split
      · simp
      · rename_i dest hdest
        split
        · simp
        · rename_i srcTags h0
          obtain rfl := runStmt_ok h0
          split
          · rename_i hnone
            have hall : ∀ x ∈ get_tags db src, (mkTag x).isSome := by
              intro x hx
              obtain ⟨tid, hmem⟩ := get_tags_mem_tags hx
              exact hvalid (tid, x) hmem
            rw [collectValid_of_valid (fun a b hb => mkTag_eq_self hb) hall]
              at hnone
            cases hnone
          · split
            · simp
            · split
              · simp
              · simp
  · intro failAt db rawSrc rawDest src dest hsv hdv hbad hne
    rw [rpc_copy_tags, hsv]
    simp only
    rw [hdv]
    simp only
    rw [runStmt_ne hne]
    simp only
    rw [collectValid_none hbad]

theorem claim_C10_witness :
    (rpc_copy_tags true none dbOne h32 h32b).1 ≠ RpcResult.panic ∧
    rpc_copy_tags true none dbBad h32 h32 = (RpcResult.panic, dbBad) :=
  ⟨claim_C10.1 none dbOne h32 h32b (by decide),
    claim_C10.2 none dbBad h32 h32 h32 h32 (by decide) (by decide)
      ⟨"", by decide, by decide⟩ (by decide)⟩

end Tgcd
